import Mathlib

/-!
Verification of the spatial hash grid of `server/world/spatial.go`.

Embedding conventions:
* `EntityHandle` values are opaque caller-owned references; the grid compares them
  only by reference equality (`h == handle` on pointers).  A reference is modelled
  by a natural-number identity.
* World positions (`mgl64.Vec3`, three float64 fields) are modelled as triples of
  rationals.  The Go conversion `int32(f)` truncates the float toward zero; it is
  modelled by `truncQ` on rationals.  Positions are assumed to stay inside the
  int32 range, so the two-complement wrap-around of an out-of-range conversion
  (left implementation-defined by Go) is not modelled.
* `int32` cell coordinates and the cell size are modelled as integers, again under
  the in-range assumption.  Go division on int32 truncates toward zero and is
  modelled by `Int.tdiv`.  The constructor contract of the spec requires a
  positive cell size (a zero cell size would panic in Go).
* The Go map `cells map[GridCell][]*EntityHandle` is modelled as an association
  list.  Go map reads of an absent key yield the zero value `nil`, modelled by
  `mapFind` returning `[]`; Go map assignment is `aset`.  The only operation that
  iterates the map itself is `Count`, whose result (a sum of bucket lengths) does
  not depend on the iteration order, so the nondeterministic Go map order is
  irrelevant.
* The `sync.RWMutex` field guards the operations; lock acquisition has no effect
  on the sequential semantics modelled here.
-/

set_option maxHeartbeats 1000000

namespace SpatialGrid

/-- Reference identity of a caller-owned `*EntityHandle`. -/
abbrev EntityHandle := Nat

/-- A world position: `mgl64.Vec3` with float64 coordinates modelled as rationals. -/
structure Vec3 where
  x : ℚ
  y : ℚ
  z : ℚ
deriving DecidableEq, Repr

/-- GridCell of `spatial.go`: a pair of int32 coordinates, modelled over ℤ. -/
structure GridCell where
  X : ℤ
  Z : ℤ
deriving DecidableEq, Repr

/-- A chunk position (`world.ChunkPos`, a pair of int32 coordinates). -/
abbrev ChunkPos := ℤ × ℤ

/-- Go conversion `int32(f)` of a float64: truncation toward zero.
For a rational `num/den` with positive denominator this is `num.tdiv den`. -/
def truncQ (q : ℚ) : ℤ := q.num.tdiv q.den

/-- Generic association-list lookup (models a Go map read returning `(value, ok)`). -/
def afind? {κ α : Type} [DecidableEq κ] : List (κ × α) → κ → Option α
  | [], _ => none
  | (k, v) :: m, k0 => if k = k0 then some v else afind? m k0

/-- Generic association-list assignment (models a Go map write). -/
def aset {κ α : Type} [DecidableEq κ] : List (κ × α) → κ → α → List (κ × α)
  | [], k, v => [(k, v)]
  | (k0, v0) :: m, k, v => if k0 = k then (k, v) :: m else (k0, v0) :: aset m k v

/-- Generic association-list deletion of the entry for a key. -/
def aerase {κ α : Type} [DecidableEq κ] : List (κ × α) → κ → List (κ × α)
  | [], _ => []
  | (k0, v0) :: m, k => if k0 = k then m else (k0, v0) :: aerase m k

/-- The state of the field `cells map[GridCell][]*EntityHandle`. -/
abbrev CellMap := List (GridCell × List EntityHandle)

/-- Reading `g.cells[cell]`: an absent key yields the zero value `nil`. -/
def mapFind (g : CellMap) (c : GridCell) : List EntityHandle := (afind? g c).getD []

/-- cellForPos of `spatial.go`:
`GridCell{X: int32(pos[0]) / g.cellSize, Z: int32(pos[2]) / g.cellSize}`. -/
def cellForPos (cellSize : ℤ) (pos : Vec3) : GridCell :=
  { X := (truncQ pos.x).tdiv cellSize
    Z := (truncQ pos.z).tdiv cellSize }

/-- cellForChunkPos of `spatial.go`: `GridCell{X: pos[0], Z: pos[1]}`. -/
def cellForChunkPos (pos : ChunkPos) : GridCell :=
  { X := pos.1
    Z := pos.2 }

/-- Add of `spatial.go`.  The Go code reads `handle.data.Pos`; the value read is
passed here explicitly as `pos`.  `g.cells[cell] = append(g.cells[cell], handle)`. -/
def Add (cellSize : ℤ) (g : CellMap) (handle : EntityHandle) (pos : Vec3) : CellMap :=
  let cell := cellForPos cellSize pos
  aset g cell (mapFind g cell ++ [handle])

/-- The removal loop shared by `Remove` and `Update`: scan the bucket for the first
reference-equal element; `some` of the bucket with that slot sliced out
(`append(handles[:i], handles[i+1:]...)`), or `none` when no element matches. -/
def removeFirst? (handle : EntityHandle) : List EntityHandle → Option (List EntityHandle)
  | [] => none
  | h :: t => if h = handle then some t else (removeFirst? handle t).map (fun b => h :: b)

/-- Remove of `spatial.go`.  The Go code reads `handle.data.Pos`, passed here as
`pos`.  When the scan finds no reference-equal element the map is left untouched. -/
def Remove (cellSize : ℤ) (g : CellMap) (handle : EntityHandle) (pos : Vec3) : CellMap :=
  let cell := cellForPos cellSize pos
  match removeFirst? handle (mapFind g cell) with
  | none => g
  | some b => aset g cell b

/-- Update of `spatial.go`: if both positions map to the same cell, return `false`
without mutating; otherwise remove the handle from the old bucket (the loop breaks
after the first match and falls through when there is none) and append it to the
new bucket, returning `true`. -/
def Update (cellSize : ℤ) (g : CellMap) (handle : EntityHandle) (oldPos newPos : Vec3) :
    CellMap × Bool :=
  let oldCell := cellForPos cellSize oldPos
  let newCell := cellForPos cellSize newPos
  if oldCell = newCell then (g, false)
  else
    let g1 :=
      match removeFirst? handle (mapFind g oldCell) with
      | none => g
      | some b => aset g oldCell b
    (aset g1 newCell (mapFind g1 newCell ++ [handle]), true)

/-- Modelled from the spec: the box type `cube.BBox` of package `server/block/cube`
(not under `src/`): a box type exposing minimum and maximum corner points. -/
structure BBox where
  min : Vec3
  max : Vec3
deriving DecidableEq, Repr

/-- Modelled from the spec: the point-containment test `cube.BBox.Vec3Within`
(not under `src/`), the test whether a stored position lies within the box.  The
spec does not fix whether the bounds are inclusive; inclusive bounds are used
here, and no claim below depends on that choice. -/
def vec3Within (box : BBox) (v : Vec3) : Bool :=
  decide (box.min.x ≤ v.x) && decide (v.x ≤ box.max.x) &&
  decide (box.min.y ≤ v.y) && decide (v.y ≤ box.max.y) &&
  decide (box.min.z ≤ v.z) && decide (v.z ≤ box.max.z)

/-- Modelled from the spec: the constructor `cube.Box` of package
`server/block/cube` (not under `src/`), building the box with the two given
corner points. -/
def mkBox (x1 y1 z1 x2 y2 z2 : ℚ) : BBox :=
  { min := ⟨x1, y1, z1⟩, max := ⟨x2, y2, z2⟩ }

/-- The inclusive iteration `for x := lo; x <= hi; x++` as a list of integers. -/
def intRange (lo hi : ℤ) : List ℤ :=
  (List.range (hi + 1 - lo).toNat).map (fun n : ℕ => lo + (n : ℤ))

/-- QueryNearby of `spatial.go`.  `env` models the dereference `h.data.Pos` for a
stored handle.  Cells of the inclusive rectangle from the cell of `box.Min()` to
the cell of `box.Max()` are scanned in loop order, keeping every handle whose
stored position passes `box.Vec3Within`. -/
def QueryNearby (cellSize : ℤ) (g : CellMap) (env : EntityHandle → Vec3) (box : BBox) :
    List EntityHandle :=
  let minCell := cellForPos cellSize box.min
  let maxCell := cellForPos cellSize box.max
  ((intRange minCell.X maxCell.X).map (fun x =>
    ((intRange minCell.Z maxCell.Z).map (fun z =>
      (mapFind g ⟨x, z⟩).filter (fun h => vec3Within box (env h)))).flatten)).flatten

/-- The body of the inner QueryChunks loop: the state is the pair of the `seen`
set (a map to bool, modelled as a list queried by membership) and the `result`
slice; `if !seen[h] { seen[h] = true; result = append(result, h) }`. -/
def chunksSeenStep (st : List EntityHandle × List EntityHandle) (h : EntityHandle) :
    List EntityHandle × List EntityHandle :=
  if h ∈ st.1 then st else (st.1 ++ [h], st.2 ++ [h])

/-- QueryChunks of `spatial.go`: scan the bucket of every requested chunk in
request order, threading the `seen`/`result` pair, and return the result slice. -/
def QueryChunks (g : CellMap) (chunks : List ChunkPos) : List EntityHandle :=
  (chunks.foldl (fun st cp => (mapFind g (cellForChunkPos cp)).foldl chunksSeenStep st)
    ([], [])).2

/-- QueryRadius of `spatial.go`: build the box from `pos - radius` to
`pos + radius` on every axis and delegate to QueryNearby. -/
def QueryRadius (cellSize : ℤ) (g : CellMap) (env : EntityHandle → Vec3) (pos : Vec3)
    (radius : ℤ) : List EntityHandle :=
  QueryNearby cellSize g env
    (mkBox (pos.x - (radius : ℚ)) (pos.y - (radius : ℚ)) (pos.z - (radius : ℚ))
      (pos.x + (radius : ℚ)) (pos.y + (radius : ℚ)) (pos.z + (radius : ℚ)))

/-- Clear of `spatial.go`: replace the cell mapping by an empty one. -/
def Clear (_g : CellMap) : CellMap := []

/-- Count of `spatial.go`: the sum of the bucket lengths over all entries of the
map (the Go iteration order does not change a sum). -/
def Count (g : CellMap) : ℕ := (g.map (fun e => e.2.length)).sum

/-!
The caller protocol.  The grid stores references whose position field
`handle.data.Pos` is owned and mutated by the caller.  The spec fixes the caller
contract: each handle is added at most once before being removed, `Update` is
called with the position supplied at the previous `Add`/`Update` of the handle as
`oldPos` and with the freshly written `handle.data.Pos` as `newPos`, and `Remove`
is called while `handle.data.Pos` still is the last position the grid was told
about.  A trace of events drives the grid through exactly these contract-abiding
call sequences; `live` records, for every handle currently in the grid, the
position supplied at its most recent `Add`/`Update` (equal, under the contract,
to its `data.Pos`).
-/

/-- One contract-abiding caller interaction with the grid. -/
inductive Ev where
  /-- Spawn: the caller creates a handle whose `data.Pos` is `p` and calls `Add`. -/
  | add (h : EntityHandle) (p : Vec3)
  /-- Movement: the caller writes `data.Pos := p` and calls
  `Update(h, oldPos, p)` with `oldPos` the previously supplied position. -/
  | move (h : EntityHandle) (p : Vec3)
  /-- Despawn: the caller calls `Remove(h)` with `data.Pos` unchanged. -/
  | remove (h : EntityHandle)
deriving DecidableEq, Repr

/-- The grid state together with the ghost record of stored positions. -/
structure GState where
  grid : CellMap
  live : List (EntityHandle × Vec3)
deriving DecidableEq, Repr

/-- The state of a freshly constructed grid (`newSpatialGrid`). -/
def initState : GState := { grid := [], live := [] }

/-- Effect of one event on the state. -/
def stepEv (cellSize : ℤ) (s : GState) : Ev → GState
  | .add h p => { grid := Add cellSize s.grid h p, live := aset s.live h p }
  | .move h p =>
      match afind? s.live h with
      | none => s
      | some oldPos => { grid := (Update cellSize s.grid h oldPos p).1, live := aset s.live h p }
  | .remove h =>
      match afind? s.live h with
      | none => s
      | some pos => { grid := Remove cellSize s.grid h pos, live := aerase s.live h }

/-- The caller contract for one event: `Add` only for handles not currently in
the grid, `Update` and `Remove` only for handles currently in it. -/
def wfEv (s : GState) : Ev → Bool
  | .add h _ => (afind? s.live h).isNone
  | .move h _ => (afind? s.live h).isSome
  | .remove h => (afind? s.live h).isSome

/-- Run a trace of events. -/
def runTrace (cellSize : ℤ) (s : GState) : List Ev → GState
  | [] => s
  | e :: tr => runTrace cellSize (stepEv cellSize s e) tr

/-- A trace abides by the caller contract when every event does in the state it
is executed in. -/
def wfTrace (cellSize : ℤ) (s : GState) : List Ev → Bool
  | [] => true
  | e :: tr => wfEv s e && wfTrace cellSize (stepEv cellSize s e) tr

/-- The position field `h.data.Pos` at a contract-abiding state: the stored
position for handles in the grid (the default value is never read by the grid,
since only stored handles are dereferenced). -/
def envOf (s : GState) (h : EntityHandle) : Vec3 := (afind? s.live h).getD ⟨0, 0, 0⟩

/-!  Definitions written from the words of the spec, for comparison. -/

/-- Floor of a rational: for `num/den` with positive denominator this is the
Euclidean division `num / den`, which Mathlib proves equal to `Int.floor`. -/
def floorQ (q : ℚ) : ℤ := q.num / q.den

/-- The cell formula as the claim states it:
`(floor(pos.x / cellSize), floor(pos.z / cellSize))`. -/
def specFloorCell (cellSize : ℤ) (pos : Vec3) : GridCell :=
  { X := floorQ (pos.x / (cellSize : ℚ))
    Z := floorQ (pos.z / (cellSize : ℚ)) }

/-- Modelled from the spec: the box the QueryRadius description builds, a
symmetric box of side `2 × radius` centered on `pos`. -/
def radiusBoxSpec (pos : Vec3) (radius : ℤ) : BBox :=
  { min := ⟨pos.x - (radius : ℚ), pos.y - (radius : ℚ), pos.z - (radius : ℚ)⟩
    max := ⟨pos.x + (radius : ℚ), pos.y + (radius : ℚ), pos.z + (radius : ℚ)⟩ }

/-- Squared Euclidean distance of two positions. -/
def sqDist (a b : Vec3) : ℚ :=
  (a.x - b.x) * (a.x - b.x) + (a.y - b.y) * (a.y - b.y) + (a.z - b.z) * (a.z - b.z)

/-- Modelled from the spec: the external world partitioning into chunks (the
source of `world.ChunkPos` values, not under `src/`).  The world is partitioned
into fixed-size square chunks of edge length `edge` on the horizontal plane; the
chunk with coordinates `(cx, cz)` covers positions with `cx*edge ≤ x < (cx+1)*edge`
and `cz*edge ≤ z < (cz+1)*edge`, so the chunk coordinates of a position are the
floor divisions of its horizontal coordinates by `edge` (computed below by the
nested-floor identity `floor(x/edge) = floor(x) fdiv edge` for positive `edge`). -/
def chunkOfPos (edge : ℤ) (p : Vec3) : ChunkPos :=
  ((floorQ p.x).fdiv edge, (floorQ p.z).fdiv edge)

/-- Keep the first occurrence of every element, dropping later duplicates: the
specification of first-encounter deduplication. -/
def dedupFirst : List EntityHandle → List EntityHandle
  | [] => []
  | h :: t => h :: dedupFirst (t.filter (fun x => decide (x ≠ h)))
termination_by l => l.length
decreasing_by
  simp only [List.length_cons]
  exact Nat.lt_succ_of_le (List.length_filter_le _ _)

/-- The flat scan QueryChunks performs: the buckets of the requested chunks in
request order, concatenated. -/
def chunkScan (g : CellMap) (chunks : List ChunkPos) : List EntityHandle :=
  (chunks.map (fun cp => mapFind g (cellForChunkPos cp))).flatten

/-- Occurrences of a handle across all buckets of the map. -/
def bcount (h : EntityHandle) (g : CellMap) : ℕ := ((g.map Prod.snd).flatten).count h

/-- Occurrences of a handle among the keys of the ghost `live` record. -/
def lcount (h : EntityHandle) (l : List (EntityHandle × Vec3)) : ℕ := (l.map Prod.fst).count h

/-- The state invariant of contract-abiding traces: the ghost record has one
entry per handle, the buckets hold exactly the live handles (with multiplicity),
and every live handle sits in the bucket of the cell of its stored position. -/
def Inv (cellSize : ℤ) (s : GState) : Prop :=
  (s.live.map Prod.fst).Nodup ∧
  (∀ h, bcount h s.grid = lcount h s.live) ∧
  (∀ h p, afind? s.live h = some p → h ∈ mapFind s.grid (cellForPos cellSize p))

/-- The rectangle of cells covered by a box query, as an inclusive range on both
axes. -/
def cellInRange (c lo hi : GridCell) : Prop :=
  lo.X ≤ c.X ∧ c.X ≤ hi.X ∧ lo.Z ≤ c.Z ∧ c.Z ≤ hi.Z

/-- The cells of the rectangle scanned by QueryNearby, in loop order. -/
def cellProd (xs zs : List ℤ) : List GridCell :=
  (xs.map (fun x => zs.map (fun z => GridCell.mk x z))).flatten

/-- One step of first-encounter deduplication on a single accumulator (the
`seen` set and the `result` slice of QueryChunks always hold the same handles,
so one list can play both roles). -/
def dedupStep (acc : List EntityHandle) (h : EntityHandle) : List EntityHandle :=
  if h ∈ acc then acc else acc ++ [h]

/-!  Association-list lemmas. -/

theorem afind?_aset_self {κ α : Type} [DecidableEq κ] (m : List (κ × α)) (k : κ) (v : α) :
    afind? (aset m k v) k = some v := by
  induction m with
  | nil => simp [aset, afind?]
  | cons e m ih =>
    obtain ⟨k0, v0⟩ := e
    by_cases hk : k0 = k
    · subst hk; simp [aset, afind?]
    · simp [aset, hk, afind?, ih]

theorem afind?_aset_ne {κ α : Type} [DecidableEq κ] (m : List (κ × α)) {k k1 : κ} (v : α)
    (hne : k ≠ k1) : afind? (aset m k v) k1 = afind? m k1 := by
  induction m with
  | nil => simp [aset, afind?, hne]
  | cons e m ih =>
    obtain ⟨k0, v0⟩ := e
    by_cases hk : k0 = k
    · subst hk; simp [aset, afind?, hne]
    · simp [aset, hk, afind?, ih]

theorem afind?_eq_none_iff {κ α : Type} [DecidableEq κ] (m : List (κ × α)) (k : κ) :
    afind? m k = none ↔ k ∉ m.map Prod.fst := by
  induction m with
  | nil => simp [afind?]
  | cons e m ih =>
    obtain ⟨k0, v0⟩ := e
    by_cases hk : k0 = k
    · subst hk; simp [afind?]
    · simp [afind?, hk, ih, Ne.symm hk]

theorem aset_keys_of_isSome {κ α : Type} [DecidableEq κ] (m : List (κ × α)) {k : κ} (v : α)
    (hs : (afind? m k).isSome) : (aset m k v).map Prod.fst = m.map Prod.fst := by
  induction m with
  | nil => simp [afind?] at hs
  | cons e m ih =>
    obtain ⟨k0, v0⟩ := e
    by_cases hk : k0 = k
    · subst hk; simp [aset]
    · simp [afind?, hk] at hs
      simp [aset, hk, ih hs]

theorem aset_keys_of_none {κ α : Type} [DecidableEq κ] (m : List (κ × α)) {k : κ} (v : α)
    (hn : afind? m k = none) : (aset m k v).map Prod.fst = m.map Prod.fst ++ [k] := by
  induction m with
  | nil => simp [aset]
  | cons e m ih =>
    obtain ⟨k0, v0⟩ := e
    by_cases hk : k0 = k
    · subst hk; simp [afind?] at hn
    · simp [afind?, hk] at hn
      simp [aset, hk, ih hn]

theorem afind?_aerase_ne {κ α : Type} [DecidableEq κ] (m : List (κ × α)) {k k1 : κ}
    (hne : k ≠ k1) : afind? (aerase m k) k1 = afind? m k1 := by
  induction m with
  | nil => simp [aerase]
  | cons e m ih =>
    obtain ⟨k0, v0⟩ := e
    by_cases hk : k0 = k
    · subst hk; simp [aerase, afind?, hne]
    · simp [aerase, hk, afind?, ih]

theorem aerase_keys_sublist {κ α : Type} [DecidableEq κ] (m : List (κ × α)) (k : κ) :
    ((aerase m k).map Prod.fst).Sublist (m.map Prod.fst) := by
  induction m with
  | nil => simp [aerase]
  | cons e m ih =>
    obtain ⟨k0, v0⟩ := e
    by_cases hk : k0 = k
    · simp only [aerase, hk, if_true, List.map_cons]
      exact List.sublist_cons_self k (m.map Prod.fst)
    · simpa [aerase, hk] using ih.cons₂ k0

theorem afind?_aerase_self {κ α : Type} [DecidableEq κ] (m : List (κ × α)) (k : κ)
    (hnd : (m.map Prod.fst).Nodup) : afind? (aerase m k) k = none := by
  induction m with
  | nil => simp [aerase, afind?]
  | cons e m ih =>
    obtain ⟨k0, v0⟩ := e
    simp only [List.map_cons, List.nodup_cons] at hnd
    by_cases hk : k0 = k
    · subst hk
      simpa [aerase, afind?_eq_none_iff] using hnd.1
    · simp [aerase, hk, afind?, ih hnd.2]

theorem aerase_keys_count {κ α : Type} [DecidableEq κ] (m : List (κ × α)) (k : κ)
    (hs : (afind? m k).isSome) (x : κ) :
    ((aerase m k).map Prod.fst).count x + (if x = k then 1 else 0) =
      (m.map Prod.fst).count x := by
  induction m with
  | nil => simp [afind?] at hs
  | cons e m ih =>
    obtain ⟨k0, v0⟩ := e
    by_cases hk : k0 = k
    · subst hk
      by_cases hx : x = k0 <;> simp [aerase, List.count_cons, hx, beq_iff_eq]
    · simp [afind?, hk] at hs
      have := ih hs
      by_cases hx : x = k0 <;>
        simp [aerase, hk, List.count_cons, hx, beq_iff_eq] at this ⊢ <;> omega

/-!  Lemmas about `mapFind`, `aset` and `bcount` on cell maps. -/

theorem mapFind_cons (c0 : GridCell) (b0 : List EntityHandle) (m : CellMap) (c : GridCell) :
    mapFind ((c0, b0) :: m) c = if c0 = c then b0 else mapFind m c := by
  by_cases hk : c0 = c <;> simp [mapFind, afind?, hk]

theorem mapFind_aset_self (g : CellMap) (c : GridCell) (b : List EntityHandle) :
    mapFind (aset g c b) c = b := by
  simp [mapFind, afind?_aset_self]

theorem mapFind_aset_ne (g : CellMap) {c c1 : GridCell} (b : List EntityHandle)
    (hne : c ≠ c1) : mapFind (aset g c b) c1 = mapFind g c1 := by
  simp [mapFind, afind?_aset_ne g b hne]

theorem bcount_cons (h : EntityHandle) (c : GridCell) (b : List EntityHandle) (m : CellMap) :
    bcount h ((c, b) :: m) = b.count h + bcount h m := by
  simp [bcount, List.count_append]

theorem bcount_aset (g : CellMap) (c : GridCell) (b : List EntityHandle) (h : EntityHandle) :
    bcount h (aset g c b) + (mapFind g c).count h = bcount h g + b.count h := by
  induction g with
  | nil => simp [aset, bcount, mapFind, afind?]
  | cons e m ih =>
    obtain ⟨c0, b0⟩ := e
    by_cases hk : c0 = c
    · subst hk
      simp [aset, bcount_cons, mapFind_cons]
      omega
    · simp [aset, hk, bcount_cons, mapFind_cons] at ih ⊢
      omega

theorem count_mapFind_le_bcount (g : CellMap) (c : GridCell) (h : EntityHandle) :
    (mapFind g c).count h ≤ bcount h g := by
  induction g with
  | nil => simp [mapFind, afind?]
  | cons e m ih =>
    obtain ⟨c0, b0⟩ := e
    rw [mapFind_cons, bcount_cons]
    by_cases hk : c0 = c <;> simp [hk] <;> omega

theorem sum_map_eq_of_eq_except {κ : Type} [DecidableEq κ] (cl : List κ) (hcl : cl.Nodup)
    (f1 f2 : κ → ℕ) (k : κ) (hfe : ∀ c, c ≠ k → f1 c = f2 c) :
    (cl.map f1).sum + (if k ∈ cl then f2 k else 0) =
      (cl.map f2).sum + (if k ∈ cl then f1 k else 0) := by
  induction cl with
  | nil => simp
  | cons a cl ih =>
    simp only [List.nodup_cons] at hcl
    by_cases ha : a = k
    · subst ha
      have htl : cl.map f1 = cl.map f2 :=
        List.map_congr_left (fun c hc => hfe c (fun hck => hcl.1 (hck ▸ hc)))
      simp [htl]
      omega
    · have := ih hcl.2
      have hfa : f1 a = f2 a := hfe a ha
      by_cases hk : k ∈ cl <;> simp [ha, Ne.symm ha, hk, hfa] at this ⊢ <;> omega

theorem sum_counts_nodup_cells_le (g : CellMap) (cl : List GridCell) (hcl : cl.Nodup)
    (h : EntityHandle) :
    (cl.map (fun c => (mapFind g c).count h)).sum ≤ bcount h g := by
  induction g generalizing cl with
  | nil =>
    simp [mapFind, afind?, bcount]
  | cons e m ih =>
    obtain ⟨c0, b0⟩ := e
    have hkey := sum_map_eq_of_eq_except cl hcl
      (fun c => (mapFind ((c0, b0) :: m) c).count h)
      (fun c => (mapFind m c).count h) c0
      (fun c hc => by simp [mapFind_cons, Ne.symm hc])
    have hc0 : (mapFind ((c0, b0) :: m) c0).count h = b0.count h := by
      rw [mapFind_cons]; simp
    have hm := ih cl hcl
    rw [bcount_cons]
    by_cases hmem : c0 ∈ cl <;> simp [hmem, hc0] at hkey <;> omega

/-!  Lemmas about the removal scan. -/

theorem removeFirst?_eq_none_iff (h : EntityHandle) (b : List EntityHandle) :
    removeFirst? h b = none ↔ h ∉ b := by
  induction b with
  | nil => simp [removeFirst?]
  | cons x t ih =>
    by_cases hx : x = h
    · subst hx; simp [removeFirst?]
    · simp [removeFirst?, hx, ih, Ne.symm hx]

theorem removeFirst?_count {h : EntityHandle} {b b1 : List EntityHandle}
    (hr : removeFirst? h b = some b1) (x : EntityHandle) :
    b1.count x + (if x = h then 1 else 0) = b.count x := by
  induction b generalizing b1 with
  | nil => simp [removeFirst?] at hr
  | cons y t ih =>
    by_cases hy : y = h
    · subst hy
      have hb1 : b1 = t := by simpa [removeFirst?] using hr.symm
      subst hb1
      by_cases hx : x = y <;> simp [List.count_cons, hx, beq_iff_eq]
    · simp only [removeFirst?, if_neg hy] at hr
      obtain ⟨t1, ht1, rfl⟩ := Option.map_eq_some'.mp hr
      have := ih ht1
      by_cases hx : x = y <;> simp [List.count_cons, hx, beq_iff_eq] at this ⊢ <;> omega

theorem removeFirst?_append {h : EntityHandle} {b1 : List EntityHandle}
    (b2 : List EntityHandle) (hnot : h ∉ b1) :
    removeFirst? h (b1 ++ h :: b2) = some (b1 ++ b2) := by
  induction b1 with
  | nil => simp [removeFirst?]
  | cons x t ih =>
    simp only [List.mem_cons, not_or] at hnot
    simp [removeFirst?, Ne.symm hnot.1, ih hnot.2]

theorem removeFirst?_mem_of_ne {h x : EntityHandle} {b b1 : List EntityHandle}
    (hr : removeFirst? h b = some b1) (hne : x ≠ h) : (x ∈ b1 ↔ x ∈ b) := by
  have := removeFirst?_count hr x
  simp only [if_neg hne, Nat.add_zero] at this
  rw [← List.count_pos_iff, ← List.count_pos_iff, this]

/-!  Count bridge. -/

theorem Count_eq_length_flatten (g : CellMap) :
    Count g = ((g.map Prod.snd).flatten).length := by
  simp [Count, List.length_flatten, List.map_map, Function.comp_def]

/-!  Unfolding equations for the mutating operations. -/

theorem Add_eq (cellSize : ℤ) (g : CellMap) (handle : EntityHandle) (pos : Vec3) :
    Add cellSize g handle pos =
      aset g (cellForPos cellSize pos) (mapFind g (cellForPos cellSize pos) ++ [handle]) := rfl

theorem Remove_found {cellSize : ℤ} {g : CellMap} {handle : EntityHandle} {pos : Vec3}
    {b1 : List EntityHandle}
    (hb1 : removeFirst? handle (mapFind g (cellForPos cellSize pos)) = some b1) :
    Remove cellSize g handle pos = aset g (cellForPos cellSize pos) b1 := by
  simp only [Remove, hb1]

theorem Remove_notfound {cellSize : ℤ} {g : CellMap} {handle : EntityHandle} {pos : Vec3}
    (hb : removeFirst? handle (mapFind g (cellForPos cellSize pos)) = none) :
    Remove cellSize g handle pos = g := by
  simp only [Remove, hb]

theorem Update_same {cellSize : ℤ} {g : CellMap} {handle : EntityHandle} {oldPos newPos : Vec3}
    (hc : cellForPos cellSize oldPos = cellForPos cellSize newPos) :
    Update cellSize g handle oldPos newPos = (g, false) := by
  simp only [Update, if_pos hc]

theorem Update_diff_found {cellSize : ℤ} {g : CellMap} {handle : EntityHandle}
    {oldPos newPos : Vec3} {b1 : List EntityHandle}
    (hc : cellForPos cellSize oldPos ≠ cellForPos cellSize newPos)
    (hb1 : removeFirst? handle (mapFind g (cellForPos cellSize oldPos)) = some b1) :
    Update cellSize g handle oldPos newPos =
      (aset (aset g (cellForPos cellSize oldPos) b1) (cellForPos cellSize newPos)
        (mapFind (aset g (cellForPos cellSize oldPos) b1) (cellForPos cellSize newPos) ++
          [handle]), true) := by
  simp only [Update, if_neg hc, hb1]

theorem Update_diff_notfound {cellSize : ℤ} {g : CellMap} {handle : EntityHandle}
    {oldPos newPos : Vec3}
    (hc : cellForPos cellSize oldPos ≠ cellForPos cellSize newPos)
    (hb : removeFirst? handle (mapFind g (cellForPos cellSize oldPos)) = none) :
    Update cellSize g handle oldPos newPos =
      (aset g (cellForPos cellSize newPos)
        (mapFind g (cellForPos cellSize newPos) ++ [handle]), true) := by
  simp only [Update, if_neg hc, hb]

theorem count_singleton_eq (x h : EntityHandle) : [h].count x = if x = h then 1 else 0 := by
  by_cases hx : x = h
  · subst hx; simp
  · simp [List.count_cons, beq_iff_eq, hx, Ne.symm hx]

/-!  Preservation of the invariant along contract-abiding traces. -/

theorem inv_add {cellSize : ℤ} {s : GState} (hInv : Inv cellSize s) {h : EntityHandle}
    (p : Vec3) (hnone : afind? s.live h = none) :
    Inv cellSize { grid := Add cellSize s.grid h p, live := aset s.live h p } := by
  obtain ⟨hnd, hcnt, hplace⟩ := hInv
  have hkeys : (aset s.live h p).map Prod.fst = s.live.map Prod.fst ++ [h] :=
    aset_keys_of_none s.live p hnone
  have hnotmem : h ∉ s.live.map Prod.fst := (afind?_eq_none_iff s.live h).mp hnone
  refine ⟨?_, ?_, ?_⟩
  · rw [hkeys]
    simp [List.nodup_append, hnd, hnotmem]
  · intro x
    have hb := bcount_aset s.grid (cellForPos cellSize p)
      (mapFind s.grid (cellForPos cellSize p) ++ [h]) x
    have hc := hcnt x
    have hs := count_singleton_eq x h
    show bcount x (Add cellSize s.grid h p) = lcount x (aset s.live h p)
    rw [Add_eq]
    simp only [lcount, hkeys, List.count_append, hs] at hb ⊢
    simp only [lcount] at hc
    by_cases hx : x = h
    · simp only [if_pos hx] at hb ⊢
      omega
    · simp only [if_neg hx] at hb ⊢
      omega
  · intro x q hq
    by_cases hx : x = h
    · subst hx
      rw [afind?_aset_self] at hq
      obtain rfl : p = q := by injection hq
      rw [Add_eq, mapFind_aset_self]
      simp
    · rw [afind?_aset_ne s.live p (fun he => hx he.symm)] at hq
      have hp := hplace x q hq
      rw [Add_eq]
      by_cases hcq : cellForPos cellSize q = cellForPos cellSize p
      · rw [hcq, mapFind_aset_self]
        exact List.mem_append_left _ (hcq ▸ hp)
      · rw [mapFind_aset_ne s.grid _ (fun he => hcq he.symm)]
        exact hp

theorem inv_remove {cellSize : ℤ} {s : GState} (hInv : Inv cellSize s) {h : EntityHandle}
    {p : Vec3} (hsome : afind? s.live h = some p) :
    Inv cellSize { grid := Remove cellSize s.grid h p, live := aerase s.live h } := by
  obtain ⟨hnd, hcnt, hplace⟩ := hInv
  have hmem : h ∈ mapFind s.grid (cellForPos cellSize p) := hplace h p hsome
  obtain ⟨b1, hb1⟩ : ∃ b1, removeFirst? h (mapFind s.grid (cellForPos cellSize p)) = some b1 := by
    cases hrf : removeFirst? h (mapFind s.grid (cellForPos cellSize p)) with
    | none => exact absurd hmem ((removeFirst?_eq_none_iff _ _).mp hrf)
    | some b => exact ⟨b, rfl⟩
  have hrem : Remove cellSize s.grid h p = aset s.grid (cellForPos cellSize p) b1 :=
    Remove_found hb1
  refine ⟨?_, ?_, ?_⟩
  · exact hnd.sublist (aerase_keys_sublist s.live h)
  · intro x
    have hb := bcount_aset s.grid (cellForPos cellSize p) b1 x
    have hrc := removeFirst?_count hb1 x
    have hk := aerase_keys_count s.live h (by simp [hsome]) x
    have hc := hcnt x
    show bcount x (Remove cellSize s.grid h p) = lcount x (aerase s.live h)
    rw [hrem]
    simp only [lcount] at hk hc ⊢
    by_cases hx : x = h
    · simp only [if_pos hx] at hrc hk
      omega
    · simp only [if_neg hx] at hrc hk
      omega
  · intro x q hq
    by_cases hx : x = h
    · subst hx
      rw [afind?_aerase_self s.live x hnd] at hq
      cases hq
    · rw [afind?_aerase_ne s.live (fun he => hx he.symm)] at hq
      have hp := hplace x q hq
      show x ∈ mapFind (Remove cellSize s.grid h p) (cellForPos cellSize q)
      rw [hrem]
      by_cases hcq : cellForPos cellSize q = cellForPos cellSize p
      · rw [hcq, mapFind_aset_self]
        exact (removeFirst?_mem_of_ne hb1 hx).mpr (hcq ▸ hp)
      · rw [mapFind_aset_ne s.grid _ (fun he => hcq he.symm)]
        exact hp

theorem inv_move {cellSize : ℤ} {s : GState} (hInv : Inv cellSize s) {h : EntityHandle}
    {p0 : Vec3} (p : Vec3) (hsome : afind? s.live h = some p0) :
    Inv cellSize { grid := (Update cellSize s.grid h p0 p).1, live := aset s.live h p } := by
  obtain ⟨hnd, hcnt, hplace⟩ := hInv
  have hkeys : (aset s.live h p).map Prod.fst = s.live.map Prod.fst :=
    aset_keys_of_isSome s.live p (by simp [hsome])
  have hlq : ∀ x, lcount x (aset s.live h p) = lcount x s.live := by
    intro x; simp [lcount, hkeys]
  by_cases hcell : cellForPos cellSize p0 = cellForPos cellSize p
  · have hupd : (Update cellSize s.grid h p0 p).1 = s.grid := by
      rw [Update_same hcell]
    refine ⟨by rw [hkeys]; exact hnd, ?_, ?_⟩
    · intro x
      show bcount x (Update cellSize s.grid h p0 p).1 = lcount x (aset s.live h p)
      rw [hupd, hlq x]
      exact hcnt x
    · intro x q hq
      show x ∈ mapFind (Update cellSize s.grid h p0 p).1 (cellForPos cellSize q)
      rw [hupd]
      by_cases hx : x = h
      · subst hx
        rw [afind?_aset_self] at hq
        obtain rfl : p = q := by injection hq
        exact hcell ▸ hplace x p0 hsome
      · rw [afind?_aset_ne s.live p (fun he => hx he.symm)] at hq
        exact hplace x q hq
  · have hmem : h ∈ mapFind s.grid (cellForPos cellSize p0) := hplace h p0 hsome
    obtain ⟨b1, hb1⟩ :
        ∃ b1, removeFirst? h (mapFind s.grid (cellForPos cellSize p0)) = some b1 := by
      cases hrf : removeFirst? h (mapFind s.grid (cellForPos cellSize p0)) with
      | none => exact absurd hmem ((removeFirst?_eq_none_iff _ _).mp hrf)
      | some b => exact ⟨b, rfl⟩
    have hg1find : mapFind (aset s.grid (cellForPos cellSize p0) b1) (cellForPos cellSize p) =
        mapFind s.grid (cellForPos cellSize p) :=
      mapFind_aset_ne s.grid b1 hcell
    have hupd : (Update cellSize s.grid h p0 p).1 =
        aset (aset s.grid (cellForPos cellSize p0) b1) (cellForPos cellSize p)
          (mapFind s.grid (cellForPos cellSize p) ++ [h]) := by
      rw [Update_diff_found hcell hb1, hg1find]
    refine ⟨by rw [hkeys]; exact hnd, ?_, ?_⟩
    · intro x
      have hb2 := bcount_aset (aset s.grid (cellForPos cellSize p0) b1)
        (cellForPos cellSize p) (mapFind s.grid (cellForPos cellSize p) ++ [h]) x
      rw [hg1find] at hb2
      have hb1c := bcount_aset s.grid (cellForPos cellSize p0) b1 x
      have hrc := removeFirst?_count hb1 x
      have hc := hcnt x
      have hs := count_singleton_eq x h
      show bcount x (Update cellSize s.grid h p0 p).1 = lcount x (aset s.live h p)
      rw [hupd, hlq x]
      simp only [List.count_append, hs] at hb2
      by_cases hx : x = h
      · simp only [if_pos hx] at hb2 hrc
        omega
      · simp only [if_neg hx] at hb2 hrc
        omega
    · intro x q hq
      show x ∈ mapFind (Update cellSize s.grid h p0 p).1 (cellForPos cellSize q)
      rw [hupd]
      by_cases hx : x = h
      · subst hx
        rw [afind?_aset_self] at hq
        obtain rfl : p = q := by injection hq
        rw [mapFind_aset_self]
        simp
      · rw [afind?_aset_ne s.live p (fun he => hx he.symm)] at hq
        have hp := hplace x q hq
        by_cases hcq : cellForPos cellSize q = cellForPos cellSize p
        · rw [hcq, mapFind_aset_self]
          refine List.mem_append_left _ ?_
          rw [← hcq]
          exact hp
        · rw [mapFind_aset_ne _ _ (fun he => hcq he.symm)]
          by_cases hcq0 : cellForPos cellSize q = cellForPos cellSize p0
          · rw [hcq0, mapFind_aset_self]
            exact (removeFirst?_mem_of_ne hb1 hx).mpr (hcq0 ▸ hp)
          · rw [mapFind_aset_ne _ _ (fun he => hcq0 he.symm)]
            exact hp

theorem inv_step {cellSize : ℤ} {s : GState} (hInv : Inv cellSize s) {e : Ev}
    (hwf : wfEv s e = true) : Inv cellSize (stepEv cellSize s e) := by
  cases e with
  | add h p =>
    have hnone : afind? s.live h = none := by
      simpa [wfEv, Option.isNone_iff_eq_none] using hwf
    simpa [stepEv] using inv_add hInv p hnone
  | move h p =>
    obtain ⟨p0, hp0⟩ : ∃ p0, afind? s.live h = some p0 := by
      simpa [wfEv, Option.isSome_iff_exists] using hwf
    simpa [stepEv, hp0] using inv_move hInv p hp0
  | remove h =>
    obtain ⟨p0, hp0⟩ : ∃ p0, afind? s.live h = some p0 := by
      simpa [wfEv, Option.isSome_iff_exists] using hwf
    simpa [stepEv, hp0] using inv_remove hInv hp0

theorem inv_runTrace {cellSize : ℤ} {s : GState} {tr : List Ev} (hInv : Inv cellSize s)
    (hwf : wfTrace cellSize s tr = true) : Inv cellSize (runTrace cellSize s tr) := by
  induction tr generalizing s with
  | nil => exact hInv
  | cons e tr ih =>
    rw [wfTrace, Bool.and_eq_true] at hwf
    exact ih (inv_step hInv hwf.1) hwf.2

theorem inv_init (cellSize : ℤ) : Inv cellSize initState := by
  refine ⟨by simp [initState], fun h => by simp [initState, bcount, lcount], ?_⟩
  intro x q hq
  simp [initState, afind?] at hq

theorem inv_reachable {cellSize : ℤ} {tr : List Ev}
    (hwf : wfTrace cellSize initState tr = true) :
    Inv cellSize (runTrace cellSize initState tr) :=
  inv_runTrace (inv_init cellSize) hwf

/-!  Consequences of the invariant. -/

theorem mem_keys_of_afind? {κ α : Type} [DecidableEq κ] {m : List (κ × α)} {k : κ} {v : α}
    (h : afind? m k = some v) : k ∈ m.map Prod.fst := by
  by_contra hk
  rw [(afind?_eq_none_iff m k).mpr hk] at h
  cases h

theorem inv_lcount_eq_one {cellSize : ℤ} {s : GState} (hInv : Inv cellSize s)
    {h : EntityHandle} {p : Vec3} (hlive : afind? s.live h = some p) :
    lcount h s.live = 1 := by
  obtain ⟨hnd, -, -⟩ := hInv
  have hmem : h ∈ s.live.map Prod.fst := mem_keys_of_afind? hlive
  have hle := (List.nodup_iff_count_le_one.mp hnd) h
  have hge := List.count_pos_iff.mpr hmem
  simp only [lcount]
  omega

theorem inv_cell_unique {cellSize : ℤ} {s : GState} (hInv : Inv cellSize s)
    {h : EntityHandle} {p : Vec3} (hlive : afind? s.live h = some p) :
    (mapFind s.grid (cellForPos cellSize p)).count h = 1 ∧
      ∀ c, c ≠ cellForPos cellSize p → h ∉ mapFind s.grid c := by
  have hb1 : bcount h s.grid = 1 := by
    rw [hInv.2.1 h, inv_lcount_eq_one hInv hlive]
  have hmem : h ∈ mapFind s.grid (cellForPos cellSize p) := hInv.2.2 h p hlive
  have hown : 0 < (mapFind s.grid (cellForPos cellSize p)).count h :=
    List.count_pos_iff.mpr hmem
  have hle := count_mapFind_le_bcount s.grid (cellForPos cellSize p) h
  refine ⟨by omega, ?_⟩
  intro c hc
  have hsum := sum_counts_nodup_cells_le s.grid [c, cellForPos cellSize p]
    (by simp [hc]) h
  simp only [List.map_cons, List.map_nil, List.sum_cons, List.sum_nil] at hsum
  rw [← List.count_eq_zero]
  omega

theorem inv_bucket_count_le_one {cellSize : ℤ} {s : GState} (hInv : Inv cellSize s)
    (x : EntityHandle) : bcount x s.grid ≤ 1 := by
  rw [hInv.2.1 x]
  obtain ⟨hnd, -, -⟩ := hInv
  exact List.nodup_iff_count_le_one.mp hnd x

/-!  The QueryNearby scan. -/

theorem QueryNearby_eq (cellSize : ℤ) (g : CellMap) (env : EntityHandle → Vec3) (box : BBox) :
    QueryNearby cellSize g env box =
      ((intRange (cellForPos cellSize box.min).X (cellForPos cellSize box.max).X).map (fun x =>
        ((intRange (cellForPos cellSize box.min).Z (cellForPos cellSize box.max).Z).map (fun z =>
          (mapFind g ⟨x, z⟩).filter (fun h => vec3Within box (env h)))).flatten)).flatten := rfl

theorem mem_intRange {lo hi x : ℤ} : x ∈ intRange lo hi ↔ lo ≤ x ∧ x ≤ hi := by
  simp only [intRange, List.mem_map, List.mem_range]
  constructor
  · rintro ⟨n, hn, rfl⟩
    omega
  · rintro ⟨h1, h2⟩
    exact ⟨(x - lo).toNat, by omega, by omega⟩

theorem nodup_intRange (lo hi : ℤ) : (intRange lo hi).Nodup := by
  rw [intRange]
  exact (List.nodup_range _).map (fun a b hab => by omega)

theorem mem_QueryNearby {cellSize : ℤ} {g : CellMap} {env : EntityHandle → Vec3} {box : BBox}
    {h : EntityHandle} :
    h ∈ QueryNearby cellSize g env box ↔
      ∃ c : GridCell,
        cellInRange c (cellForPos cellSize box.min) (cellForPos cellSize box.max) ∧
        h ∈ mapFind g c ∧ vec3Within box (env h) = true := by
  rw [QueryNearby_eq]
  constructor
  · intro hmem
    obtain ⟨l1, hl1, hml1⟩ := List.mem_flatten.mp hmem
    obtain ⟨x, hx, rfl⟩ := List.mem_map.mp hl1
    obtain ⟨l2, hl2, hml2⟩ := List.mem_flatten.mp hml1
    obtain ⟨z, hz, rfl⟩ := List.mem_map.mp hl2
    obtain ⟨hmem2, hwithin⟩ := List.mem_filter.mp hml2
    exact ⟨⟨x, z⟩, ⟨(mem_intRange.mp hx).1, (mem_intRange.mp hx).2,
      (mem_intRange.mp hz).1, (mem_intRange.mp hz).2⟩, hmem2, hwithin⟩
  · rintro ⟨⟨x, z⟩, ⟨hx1, hx2, hz1, hz2⟩, hmem2, hwithin⟩
    refine List.mem_flatten.mpr ⟨_, List.mem_map.mpr ⟨x, mem_intRange.mpr ⟨hx1, hx2⟩, rfl⟩, ?_⟩
    refine List.mem_flatten.mpr ⟨_, List.mem_map.mpr ⟨z, mem_intRange.mpr ⟨hz1, hz2⟩, rfl⟩, ?_⟩
    exact List.mem_filter.mpr ⟨hmem2, hwithin⟩

theorem flatten_map_cellProd (f : GridCell → List EntityHandle) (xs zs : List ℤ) :
    ((cellProd xs zs).map f).flatten =
      (xs.map (fun x => ((zs.map (fun z => f ⟨x, z⟩)).flatten))).flatten := by
  induction xs with
  | nil => simp [cellProd]
  | cons a xs ih =>
    simp only [cellProd, List.map_cons, List.flatten_cons, List.map_append,
      List.flatten_append, List.map_map] at ih ⊢
    rw [ih]
    rfl

theorem nodup_cellProd {xs zs : List ℤ} (hxs : xs.Nodup) (hzs : zs.Nodup) :
    (cellProd xs zs).Nodup := by
  rw [cellProd, List.nodup_flatten]
  constructor
  · intro l hl
    obtain ⟨x, hx, rfl⟩ := List.mem_map.mp hl
    exact hzs.map (fun a b hab => by injection hab)
  · rw [List.pairwise_map]
    refine hxs.imp ?_
    intro a b hab c hc1 hc2
    obtain ⟨z1, hz1, rfl⟩ := List.mem_map.mp hc1
    obtain ⟨z2, hz2, he⟩ := List.mem_map.mp hc2
    exact hab ((congrArg GridCell.X he).symm)

theorem QueryNearby_eq_cellProd (cellSize : ℤ) (g : CellMap) (env : EntityHandle → Vec3)
    (box : BBox) :
    QueryNearby cellSize g env box =
      ((cellProd (intRange (cellForPos cellSize box.min).X (cellForPos cellSize box.max).X)
          (intRange (cellForPos cellSize box.min).Z (cellForPos cellSize box.max).Z)).map
        (fun c => (mapFind g c).filter (fun h => vec3Within box (env h)))).flatten := by
  rw [QueryNearby_eq, flatten_map_cellProd]

theorem count_QueryNearby_le (cellSize : ℤ) (g : CellMap) (env : EntityHandle → Vec3)
    (box : BBox) (x : EntityHandle) :
    (QueryNearby cellSize g env box).count x ≤ bcount x g := by
  rw [QueryNearby_eq_cellProd, List.count_flatten, List.map_map]
  have hstep : ((cellProd (intRange (cellForPos cellSize box.min).X
        (cellForPos cellSize box.max).X)
      (intRange (cellForPos cellSize box.min).Z (cellForPos cellSize box.max).Z)).map
        (List.count x ∘ fun c => (mapFind g c).filter (fun h => vec3Within box (env h)))).sum ≤
      ((cellProd (intRange (cellForPos cellSize box.min).X (cellForPos cellSize box.max).X)
        (intRange (cellForPos cellSize box.min).Z
          (cellForPos cellSize box.max).Z)).map
        (fun c => (mapFind g c).count x)).sum := by
    refine List.sum_le_sum ?_
    intro c _
    exact List.Sublist.count_le (List.filter_sublist _) x
  refine le_trans hstep ?_
  exact sum_counts_nodup_cells_le g _ (nodup_cellProd (nodup_intRange _ _) (nodup_intRange _ _)) x

theorem QueryNearby_nodup_of_inv {cellSize : ℤ} {s : GState} (hInv : Inv cellSize s)
    (env : EntityHandle → Vec3) (box : BBox) :
    (QueryNearby cellSize s.grid env box).Nodup := by
  rw [List.nodup_iff_count_le_one]
  intro a
  have h1 := count_QueryNearby_le cellSize s.grid env box a
  have h2 := inv_bucket_count_le_one hInv a
  omega

/-!  First-encounter deduplication and the QueryChunks scan. -/

theorem dedupFirst_cons (h : EntityHandle) (t : List EntityHandle) :
    dedupFirst (h :: t) = h :: dedupFirst (t.filter (fun x => decide (x ≠ h))) := by
  rw [dedupFirst]

theorem mem_dedupFirst (x : EntityHandle) (l : List EntityHandle) :
    x ∈ dedupFirst l ↔ x ∈ l := by
  induction l using dedupFirst.induct with
  | case1 => simp [dedupFirst]
  | case2 h t ih =>
    rw [dedupFirst_cons]
    by_cases hx : x = h
    · simp [hx]
    · simp only [List.mem_cons, ih, List.mem_filter, decide_eq_true_eq]
      constructor
      · rintro (rfl | ⟨hm, -⟩)
        · exact Or.inl rfl
        · exact Or.inr hm
      · rintro (rfl | hm)
        · exact Or.inl rfl
        · exact Or.inr ⟨hm, hx⟩

theorem dedupFirst_nodup (l : List EntityHandle) : (dedupFirst l).Nodup := by
  induction l using dedupFirst.induct with
  | case1 => simp [dedupFirst]
  | case2 h t ih =>
    rw [dedupFirst_cons]
    refine List.nodup_cons.mpr ⟨?_, ih⟩
    intro hmem
    have hf := (mem_dedupFirst _ _).mp hmem
    simp at hf

theorem indexOf_filter_lt {p : EntityHandle → Bool} {t : List EntityHandle} {x y : EntityHandle}
    (hx : x ∈ t.filter p) (hy : y ∈ t.filter p)
    (hlt : (t.filter p).indexOf x < (t.filter p).indexOf y) :
    t.indexOf x < t.indexOf y := by
  induction t with
  | nil => simp at hx
  | cons a t ih =>
    by_cases hpa : p a
    · rw [List.filter_cons_of_pos hpa] at hx hy hlt
      by_cases hxa : x = a
      · rw [hxa] at hlt ⊢
        have hya : y ≠ a := by
          intro he
          rw [he] at hlt
          simp [List.indexOf_cons_self] at hlt
        rw [List.indexOf_cons_self, List.indexOf_cons_ne _ (Ne.symm hya)]
        exact Nat.succ_pos _
      · by_cases hya : y = a
        · rw [hya] at hlt
          rw [List.indexOf_cons_ne _ (Ne.symm hxa), List.indexOf_cons_self] at hlt
          omega
        · rw [List.indexOf_cons_ne _ (Ne.symm hxa), List.indexOf_cons_ne _ (Ne.symm hya)]
            at hlt ⊢
          have hx2 : x ∈ t.filter p := by
            rcases List.mem_cons.mp hx with h1 | h1
            · exact absurd h1 hxa
            · exact h1
          have hy2 : y ∈ t.filter p := by
            rcases List.mem_cons.mp hy with h1 | h1
            · exact absurd h1 hya
            · exact h1
          exact Nat.succ_lt_succ (ih hx2 hy2 (Nat.lt_of_succ_lt_succ hlt))
    · rw [List.filter_cons_of_neg hpa] at hx hy hlt
      have hxa : x ≠ a := by
        intro he
        rw [he] at hx
        exact hpa (List.of_mem_filter hx)
      have hya : y ≠ a := by
        intro he
        rw [he] at hy
        exact hpa (List.of_mem_filter hy)
      rw [List.indexOf_cons_ne _ (Ne.symm hxa), List.indexOf_cons_ne _ (Ne.symm hya)]
      exact Nat.succ_lt_succ (ih hx hy hlt)

theorem dedupFirst_pairwise (l : List EntityHandle) :
    (dedupFirst l).Pairwise (fun a b => l.indexOf a < l.indexOf b) := by
  induction l using dedupFirst.induct with
  | case1 => simp [dedupFirst]
  | case2 h t ih =>
    rw [dedupFirst_cons]
    refine List.pairwise_cons.mpr ⟨?_, ?_⟩
    · intro y hy
      have hyf := (mem_dedupFirst _ _).mp hy
      have hyne : y ≠ h := by simpa using List.of_mem_filter hyf
      rw [List.indexOf_cons_self, List.indexOf_cons_ne _ (Ne.symm hyne)]
      exact Nat.succ_pos _
    · refine ih.imp_of_mem ?_
      intro a b ha hb hab
      have haf := (mem_dedupFirst _ _).mp ha
      have hbf := (mem_dedupFirst _ _).mp hb
      have hane : a ≠ h := by simpa using List.of_mem_filter haf
      have hbne : b ≠ h := by simpa using List.of_mem_filter hbf
      have hidx := indexOf_filter_lt haf hbf hab
      rw [List.indexOf_cons_ne _ (Ne.symm hane), List.indexOf_cons_ne _ (Ne.symm hbne)]
      exact Nat.succ_lt_succ hidx

theorem foldl_chunksSeenStep (b : List EntityHandle) (acc : List EntityHandle) :
    b.foldl chunksSeenStep (acc, acc) = (b.foldl dedupStep acc, b.foldl dedupStep acc) := by
  induction b generalizing acc with
  | nil => rfl
  | cons h t ih =>
    simp only [List.foldl_cons]
    by_cases hh : h ∈ acc
    · rw [show chunksSeenStep (acc, acc) h = (acc, acc) from by simp [chunksSeenStep, hh],
        show dedupStep acc h = acc from by simp [dedupStep, hh]]
      exact ih acc
    · rw [show chunksSeenStep (acc, acc) h = (acc ++ [h], acc ++ [h]) from by
        simp [chunksSeenStep, hh],
        show dedupStep acc h = acc ++ [h] from by simp [dedupStep, hh]]
      exact ih (acc ++ [h])

theorem QueryChunks_eq_foldl (g : CellMap) (chunks : List ChunkPos) :
    QueryChunks g chunks = (chunkScan g chunks).foldl dedupStep [] := by
  have hpair : ∀ (cps : List ChunkPos) (acc : List EntityHandle),
      cps.foldl (fun st cp => (mapFind g (cellForChunkPos cp)).foldl chunksSeenStep st)
        (acc, acc) =
      (cps.foldl (fun a cp => (mapFind g (cellForChunkPos cp)).foldl dedupStep a) acc,
        cps.foldl (fun a cp => (mapFind g (cellForChunkPos cp)).foldl dedupStep a) acc) := by
    intro cps
    induction cps with
    | nil => intro acc; rfl
    | cons cp cps ih =>
      intro acc
      simp only [List.foldl_cons]
      rw [foldl_chunksSeenStep]
      exact ih _
  rw [QueryChunks, hpair chunks []]
  simp only [chunkScan, List.foldl_flatten, List.foldl_map]

theorem filter_notmem_append (t acc : List EntityHandle) (h : EntityHandle) :
    t.filter (fun x => decide (x ∉ acc ++ [h])) =
      (t.filter (fun x => decide (x ∉ acc))).filter (fun x => decide (x ≠ h)) := by
  rw [List.filter_filter]
  refine List.filter_congr ?_
  intro x _
  by_cases h1 : x ∈ acc
  · by_cases h2 : x = h
    · simp [h1, h2]
    · simp [h1, h2]
  · by_cases h2 : x = h
    · simp [h1, h2]
    · simp [h1, h2]

theorem foldl_dedupStep_eq (l : List EntityHandle) (acc : List EntityHandle) :
    l.foldl dedupStep acc = acc ++ dedupFirst (l.filter (fun x => decide (x ∉ acc))) := by
  induction l generalizing acc with
  | nil => simp [dedupFirst]
  | cons h t ih =>
    by_cases hh : h ∈ acc
    · rw [List.foldl_cons, show dedupStep acc h = acc from by simp [dedupStep, hh],
        List.filter_cons_of_neg (by simpa using hh)]
      exact ih acc
    · rw [List.foldl_cons, show dedupStep acc h = acc ++ [h] from by simp [dedupStep, hh],
        List.filter_cons_of_pos (by simpa using hh), dedupFirst_cons, ih (acc ++ [h]),
        filter_notmem_append]
      simp

theorem QueryChunks_eq_dedupFirst (g : CellMap) (chunks : List ChunkPos) :
    QueryChunks g chunks = dedupFirst (chunkScan g chunks) := by
  rw [QueryChunks_eq_foldl, foldl_dedupStep_eq]
  simp

/-!  Truncation toward zero versus floor and ceiling. -/

theorem floorQ_eq_floor (q : ℚ) : floorQ q = ⌊q⌋ := Rat.floor_def.symm

theorem truncQ_eq_floor {q : ℚ} (h : 0 ≤ q) : truncQ q = ⌊q⌋ := by
  have hn : 0 ≤ q.num := Rat.num_nonneg.mpr h
  rw [truncQ, Int.tdiv_eq_ediv hn (Int.natCast_nonneg q.den), Rat.floor_def]

theorem truncQ_eq_ceil {q : ℚ} (h : q ≤ 0) : truncQ q = ⌈q⌉ := by
  have h3 : truncQ (-q) = ⌊-q⌋ := truncQ_eq_floor (neg_nonneg.mpr h)
  have h4 : truncQ (-q) = -truncQ q := by
    rw [truncQ, truncQ, Rat.neg_num, Rat.neg_den, Int.neg_tdiv]
  have h5 : ⌊-q⌋ = -⌈q⌉ := Int.floor_neg
  omega

theorem truncQ_mono {a b : ℚ} (h : a ≤ b) : truncQ a ≤ truncQ b := by
  by_cases ha : 0 ≤ a
  · rw [truncQ_eq_floor ha, truncQ_eq_floor (le_trans ha h)]
    exact Int.floor_le_floor h
  · push_neg at ha
    by_cases hb : b ≤ 0
    · rw [truncQ_eq_ceil ha.le, truncQ_eq_ceil hb]
      exact Int.ceil_le_ceil h
    · push_neg at hb
      rw [truncQ_eq_ceil ha.le, truncQ_eq_floor hb.le]
      have h1 : ⌈a⌉ ≤ 0 := by
        rw [Int.ceil_le]
        exact_mod_cast ha.le
      have h2 : 0 ≤ ⌊b⌋ := by
        rw [Int.le_floor]
        exact_mod_cast hb.le
      omega

theorem tdiv_le_tdiv_of_le {a b c : ℤ} (hc : 0 < c) (h : a ≤ b) : a.tdiv c ≤ b.tdiv c := by
  rcases le_or_lt 0 a with ha | ha
  · rw [Int.tdiv_eq_ediv ha hc.le, Int.tdiv_eq_ediv (le_trans ha h) hc.le]
    exact Int.ediv_le_ediv hc h
  · rcases le_or_lt 0 b with hb | hb
    · have h2 : 0 ≤ (-a).tdiv c := Int.tdiv_nonneg (by omega) hc.le
      have h3 : (-a).tdiv c = -(a.tdiv c) := Int.neg_tdiv a c
      have h4 : 0 ≤ b.tdiv c := Int.tdiv_nonneg hb hc.le
      omega
    · have h5 : (-b).tdiv c ≤ (-a).tdiv c := by
        rw [Int.tdiv_eq_ediv (by omega : (0:ℤ) ≤ -b) hc.le,
          Int.tdiv_eq_ediv (by omega : (0:ℤ) ≤ -a) hc.le]
        exact Int.ediv_le_ediv hc (by omega)
      have h6 : (-a).tdiv c = -(a.tdiv c) := Int.neg_tdiv a c
      have h7 : (-b).tdiv c = -(b.tdiv c) := Int.neg_tdiv b c
      omega

theorem cellForPos_inRange {cellSize : ℤ} (hcs : 0 < cellSize) {lo p hi : Vec3}
    (h1 : lo.x ≤ p.x) (h2 : p.x ≤ hi.x) (h3 : lo.z ≤ p.z) (h4 : p.z ≤ hi.z) :
    cellInRange (cellForPos cellSize p) (cellForPos cellSize lo) (cellForPos cellSize hi) :=
  ⟨tdiv_le_tdiv_of_le hcs (truncQ_mono h1), tdiv_le_tdiv_of_le hcs (truncQ_mono h2),
    tdiv_le_tdiv_of_le hcs (truncQ_mono h3), tdiv_le_tdiv_of_le hcs (truncQ_mono h4)⟩

theorem floorQ_intCast (n : ℤ) : floorQ ((n : ℚ)) = n := by
  rw [floorQ_eq_floor]
  exact Int.floor_intCast n

theorem truncQ_intCast (n : ℤ) : truncQ ((n : ℚ)) = n := by
  rw [truncQ, Rat.num_intCast, Rat.den_intCast]
  exact Int.tdiv_one n

/-!  The claims. -/

/-- C1: for every finite sequence of Add, Remove and Update operations that
abides by the documented caller contract, applied to a freshly constructed grid,
`Count()` afterwards equals the number of handles that have been added and not
subsequently removed (the entries of the ghost `live` record). -/
theorem c1_count_invariant (cellSize : ℤ) (tr : List Ev)
    (hwf : wfTrace cellSize initState tr = true) :
    Count (runTrace cellSize initState tr).grid =
      (runTrace cellSize initState tr).live.length := by
  obtain ⟨hnd, hcnt, -⟩ := inv_reachable hwf
  have hperm : ((runTrace cellSize initState tr).grid.map Prod.snd).flatten.Perm
      ((runTrace cellSize initState tr).live.map Prod.fst) :=
    List.perm_iff_count.mpr (fun a => hcnt a)
  rw [Count_eq_length_flatten, hperm.length_eq, List.length_map]

/-- Witness for C1 at a concrete contract-abiding trace of two adds, one move
and one removal, ending with one resident handle. -/
theorem c1_count_invariant_witness :
    wfTrace 16 initState
        [Ev.add 0 ⟨1, 2, 3⟩, Ev.add 1 ⟨20, 0, 20⟩, Ev.move 0 ⟨33, 0, 5⟩, Ev.remove 1] = true ∧
      Count (runTrace 16 initState
          [Ev.add 0 ⟨1, 2, 3⟩, Ev.add 1 ⟨20, 0, 20⟩, Ev.move 0 ⟨33, 0, 5⟩,
            Ev.remove 1]).grid =
        (runTrace 16 initState
          [Ev.add 0 ⟨1, 2, 3⟩, Ev.add 1 ⟨20, 0, 20⟩, Ev.move 0 ⟨33, 0, 5⟩,
            Ev.remove 1]).live.length :=
  ⟨by decide, c1_count_invariant 16 _ (by decide)⟩

/-- C2 (amended): at every state reached by a contract-abiding trace, a handle
present in the index occupies exactly one cell, namely the cell of the position
supplied at its most recent Add or Update computed with the Go semantics —
conversion and division truncating toward zero — rather than the mathematical
floor of the claim. -/
theorem c2_occupies_exactly_stored_cell (cellSize : ℤ) (tr : List Ev)
    (h : EntityHandle) (p : Vec3) (hwf : wfTrace cellSize initState tr = true)
    (hlive : afind? (runTrace cellSize initState tr).live h = some p) :
    (mapFind (runTrace cellSize initState tr).grid (cellForPos cellSize p)).count h = 1 ∧
      ∀ c, c ≠ cellForPos cellSize p →
        h ∉ mapFind (runTrace cellSize initState tr).grid c :=
  inv_cell_unique (inv_reachable hwf) hlive

/-- Witness for C2 (amended): after an Add at (1,2,3) and a move to (33,0,5),
handle 0 sits exactly once in the bucket of the truncated cell of (33,0,5). -/
theorem c2_occupies_witness :
    (mapFind (runTrace 16 initState [Ev.add 0 ⟨1, 2, 3⟩, Ev.move 0 ⟨33, 0, 5⟩]).grid
      (cellForPos 16 ⟨33, 0, 5⟩)).count 0 = 1 :=
  (c2_occupies_exactly_stored_cell 16 [Ev.add 0 ⟨1, 2, 3⟩, Ev.move 0 ⟨33, 0, 5⟩] 0 ⟨33, 0, 5⟩
    (by decide) (by decide)).1

attribute [local semireducible] Rat.add Rat.sub Rat.mul Rat.inv in
/-- C2 counterexample: with cellSize 16 and one contract-abiding Add at
(-1, 0, -1), the handle is present in the index, but the cell the claim names —
(floor(-1/16), floor(-1/16)) = (-1, -1) — does not hold it; the bucket it does
occupy is (0, 0), produced by truncation toward zero. -/
theorem c2_counterexample_floor :
    wfTrace 16 initState [Ev.add 0 ⟨-1, 0, -1⟩] = true ∧
      afind? (runTrace 16 initState [Ev.add 0 ⟨-1, 0, -1⟩]).live 0 = some ⟨-1, 0, -1⟩ ∧
      specFloorCell 16 ⟨-1, 0, -1⟩ = ⟨-1, -1⟩ ∧
      0 ∉ mapFind (runTrace 16 initState [Ev.add 0 ⟨-1, 0, -1⟩]).grid
        (specFloorCell 16 ⟨-1, 0, -1⟩) ∧
      0 ∈ mapFind (runTrace 16 initState [Ev.add 0 ⟨-1, 0, -1⟩]).grid ⟨0, 0⟩ := by
  decide

/-- C3: on any contract-reachable state, a handle stored at position `p` is
returned by every QueryNearby whose box strictly contains `p`, and is not
returned by any QueryNearby whose covered cell range excludes the cell of `p`. -/
theorem c3_insert_query_roundtrip (cellSize : ℤ) (tr : List Ev) (h : EntityHandle) (p : Vec3)
    (hcs : 0 < cellSize) (hwf : wfTrace cellSize initState tr = true)
    (hlive : afind? (runTrace cellSize initState tr).live h = some p) :
    (∀ box : BBox,
        box.min.x < p.x ∧ p.x < box.max.x ∧ box.min.y < p.y ∧ p.y < box.max.y ∧
          box.min.z < p.z ∧ p.z < box.max.z →
        h ∈ QueryNearby cellSize (runTrace cellSize initState tr).grid
          (envOf (runTrace cellSize initState tr)) box) ∧
    (∀ box : BBox,
        ¬ cellInRange (cellForPos cellSize p) (cellForPos cellSize box.min)
            (cellForPos cellSize box.max) →
        h ∉ QueryNearby cellSize (runTrace cellSize initState tr).grid
          (envOf (runTrace cellSize initState tr)) box) := by
  have hInv := inv_reachable hwf
  have hmem := hInv.2.2 h p hlive
  have henv : envOf (runTrace cellSize initState tr) h = p := by
    simp [envOf, hlive]
  constructor
  · rintro box ⟨h1, h2, h3, h4, h5, h6⟩
    refine mem_QueryNearby.mpr ⟨cellForPos cellSize p, ?_, hmem, ?_⟩
    · exact cellForPos_inRange hcs h1.le h2.le h5.le h6.le
    · rw [henv]
      simp only [vec3Within, Bool.and_eq_true, decide_eq_true_eq]
      exact ⟨⟨⟨⟨⟨h1.le, h2.le⟩, h3.le⟩, h4.le⟩, h5.le⟩, h6.le⟩
  · intro box hnr hmemq
    obtain ⟨c, hcr, hcm, -⟩ := mem_QueryNearby.mp hmemq
    by_cases hceq : c = cellForPos cellSize p
    · exact hnr (hceq ▸ hcr)
    · exact (inv_cell_unique hInv hlive).2 c hceq hcm

/-- Witness for C3: handle 0, stored at (1,2,3), is returned for the box from
(0,1,2) to (2,3,4), which strictly contains its position. -/
theorem c3_insert_query_witness :
    0 ∈ QueryNearby 16 (runTrace 16 initState [Ev.add 0 ⟨1, 2, 3⟩]).grid
      (envOf (runTrace 16 initState [Ev.add 0 ⟨1, 2, 3⟩])) ⟨⟨0, 1, 2⟩, ⟨2, 3, 4⟩⟩ :=
  (c3_insert_query_roundtrip 16 [Ev.add 0 ⟨1, 2, 3⟩] 0 ⟨1, 2, 3⟩ (by decide) (by decide)
    (by decide)).1 ⟨⟨0, 1, 2⟩, ⟨2, 3, 4⟩⟩ (by decide)

/-- C4: Update returns true exactly when the two positions map to different
cells; on false it returns the map unchanged; on true the first reference-equal
occurrence of the handle is sliced out of the bucket of the old cell (nothing is
removed when it is absent) and the handle is appended to the bucket of the new
cell, all other buckets unchanged. -/
theorem c4_update_characterization (cellSize : ℤ) (g : CellMap) (h : EntityHandle)
    (oldPos newPos : Vec3) :
    ((Update cellSize g h oldPos newPos).2 = true ↔
      cellForPos cellSize oldPos ≠ cellForPos cellSize newPos) ∧
    (cellForPos cellSize oldPos = cellForPos cellSize newPos →
      Update cellSize g h oldPos newPos = (g, false)) ∧
    (cellForPos cellSize oldPos ≠ cellForPos cellSize newPos →
      (∀ b1 b2, mapFind g (cellForPos cellSize oldPos) = b1 ++ h :: b2 → h ∉ b1 →
        mapFind (Update cellSize g h oldPos newPos).1 (cellForPos cellSize oldPos) =
          b1 ++ b2) ∧
      (h ∉ mapFind g (cellForPos cellSize oldPos) →
        mapFind (Update cellSize g h oldPos newPos).1 (cellForPos cellSize oldPos) =
          mapFind g (cellForPos cellSize oldPos)) ∧
      mapFind (Update cellSize g h oldPos newPos).1 (cellForPos cellSize newPos) =
        mapFind g (cellForPos cellSize newPos) ++ [h] ∧
      (∀ c, c ≠ cellForPos cellSize oldPos → c ≠ cellForPos cellSize newPos →
        mapFind (Update cellSize g h oldPos newPos).1 c = mapFind g c)) := by
  refine ⟨?_, ?_, ?_⟩
  · by_cases hc : cellForPos cellSize oldPos = cellForPos cellSize newPos
    · rw [Update_same hc]
      simp [hc]
    · constructor
      · intro _
        exact hc
      · intro _
        cases hrf : removeFirst? h (mapFind g (cellForPos cellSize oldPos)) with
        | none => rw [Update_diff_notfound hc hrf]
        | some b => rw [Update_diff_found hc hrf]
  · intro hc
    exact Update_same hc
  · intro hc
    refine ⟨?_, ?_, ?_, ?_⟩
    · intro b1 b2 hdecomp hnb1
      have hrf := removeFirst?_append b2 hnb1
      rw [← hdecomp] at hrf
      rw [Update_diff_found hc hrf, mapFind_aset_ne _ _ (Ne.symm hc), mapFind_aset_self]
    · intro hnot
      have hrf := (removeFirst?_eq_none_iff h _).mpr hnot
      rw [Update_diff_notfound hc hrf, mapFind_aset_ne _ _ (Ne.symm hc)]
    · cases hrf : removeFirst? h (mapFind g (cellForPos cellSize oldPos)) with
      | none => rw [Update_diff_notfound hc hrf, mapFind_aset_self]
      | some b => rw [Update_diff_found hc hrf, mapFind_aset_self, mapFind_aset_ne _ _ hc]
    · intro c hco hcn
      cases hrf : removeFirst? h (mapFind g (cellForPos cellSize oldPos)) with
      | none => rw [Update_diff_notfound hc hrf, mapFind_aset_ne _ _ (Ne.symm hcn)]
      | some b =>
        rw [Update_diff_found hc hrf, mapFind_aset_ne _ _ (Ne.symm hcn),
          mapFind_aset_ne _ _ (Ne.symm hco)]

/-- Witness for C4: moving handle 5 from a position in cell (0,0) to one in
cell (1,0) returns true, empties the old bucket and fills the new one. -/
theorem c4_update_witness :
    (Update 16 [((⟨0, 0⟩ : GridCell), [5])] 5 ⟨1, 0, 1⟩ ⟨20, 0, 1⟩).2 = true ∧
      mapFind (Update 16 [((⟨0, 0⟩ : GridCell), [5])] 5 ⟨1, 0, 1⟩ ⟨20, 0, 1⟩).1
        (cellForPos 16 ⟨1, 0, 1⟩) = [] ∧
      mapFind (Update 16 [((⟨0, 0⟩ : GridCell), [5])] 5 ⟨1, 0, 1⟩ ⟨20, 0, 1⟩).1
        (cellForPos 16 ⟨20, 0, 1⟩) = [5] := by
  have hth := c4_update_characterization 16 [(⟨0, 0⟩, [5])] 5 ⟨1, 0, 1⟩ ⟨20, 0, 1⟩
  have hne : cellForPos 16 (⟨1, 0, 1⟩ : Vec3) ≠ cellForPos 16 (⟨20, 0, 1⟩ : Vec3) := by decide
  refine ⟨hth.1.mpr hne, ?_, ?_⟩
  · have h1 := (hth.2.2 hne).1 [] [] (by decide) (by decide)
    simpa using h1
  · have h2 := (hth.2.2 hne).2.2.1
    rw [show mapFind [((⟨0, 0⟩ : GridCell), [5])] (cellForPos 16 ⟨20, 0, 1⟩) = [] from by decide]
      at h2
    simpa using h2

/-- C5: on any contract-reachable state, no handle appears more than once in the
result of a single QueryNearby or QueryChunks call, also when the query spans
several cells. -/
theorem c5_query_results_nodup (cellSize : ℤ) (tr : List Ev)
    (hwf : wfTrace cellSize initState tr = true) :
    (∀ (env : EntityHandle → Vec3) (box : BBox),
        (QueryNearby cellSize (runTrace cellSize initState tr).grid env box).Nodup) ∧
    (∀ chunks : List ChunkPos,
        (QueryChunks (runTrace cellSize initState tr).grid chunks).Nodup) := by
  refine ⟨fun env box => QueryNearby_nodup_of_inv (inv_reachable hwf) env box,
    fun chunks => ?_⟩
  rw [QueryChunks_eq_dedupFirst]
  exact dedupFirst_nodup _

/-- Witness for C5: a box query spanning the cells of the two resident handles
returns a duplicate-free result. -/
theorem c5_query_witness :
    (QueryNearby 16 (runTrace 16 initState [Ev.add 0 ⟨1, 2, 3⟩, Ev.add 1 ⟨20, 0, 20⟩]).grid
      (envOf (runTrace 16 initState [Ev.add 0 ⟨1, 2, 3⟩, Ev.add 1 ⟨20, 0, 20⟩]))
      ⟨⟨0, 0, 0⟩, ⟨30, 30, 30⟩⟩).Nodup :=
  (c5_query_results_nodup 16 [Ev.add 0 ⟨1, 2, 3⟩, Ev.add 1 ⟨20, 0, 20⟩] (by decide)).1
    (envOf (runTrace 16 initState [Ev.add 0 ⟨1, 2, 3⟩, Ev.add 1 ⟨20, 0, 20⟩]))
    ⟨⟨0, 0, 0⟩, ⟨30, 30, 30⟩⟩

/-- C6: when the handle is absent from the bucket of the cell of its current
position, Remove returns the map unchanged; when present, exactly the first
reference-equal occurrence is sliced out of that bucket, the order of the
remaining elements and every other bucket being preserved. -/
theorem c6_remove_characterization (cellSize : ℤ) (g : CellMap) (h : EntityHandle)
    (pos : Vec3) :
    (h ∉ mapFind g (cellForPos cellSize pos) → Remove cellSize g h pos = g) ∧
    (∀ b1 b2, mapFind g (cellForPos cellSize pos) = b1 ++ h :: b2 → h ∉ b1 →
      mapFind (Remove cellSize g h pos) (cellForPos cellSize pos) = b1 ++ b2 ∧
        ∀ c, c ≠ cellForPos cellSize pos →
          mapFind (Remove cellSize g h pos) c = mapFind g c) := by
  refine ⟨?_, ?_⟩
  · intro hnot
    exact Remove_notfound ((removeFirst?_eq_none_iff h _).mpr hnot)
  · intro b1 b2 hdecomp hnb1
    have hrf := removeFirst?_append b2 hnb1
    rw [← hdecomp] at hrf
    rw [Remove_found hrf]
    exact ⟨mapFind_aset_self _ _ _, fun c hc => mapFind_aset_ne _ _ (Ne.symm hc)⟩

/-- Witness for C6: removing an absent handle leaves the map unchanged, and
removing handle 7 from the bucket [3, 7] leaves [3]. -/
theorem c6_remove_witness :
    Remove 16 [((⟨0, 0⟩ : GridCell), [7])] 9 ⟨1, 0, 1⟩ = [(⟨0, 0⟩, [7])] ∧
      mapFind (Remove 16 [((⟨0, 0⟩ : GridCell), [3, 7])] 7 ⟨1, 0, 1⟩)
        (cellForPos 16 ⟨1, 0, 1⟩) = [3] := by
  have h1 := (c6_remove_characterization 16 [(⟨0, 0⟩, [7])] 9 ⟨1, 0, 1⟩).1 (by decide)
  have h2 := ((c6_remove_characterization 16 [(⟨0, 0⟩, [3, 7])] 7 ⟨1, 0, 1⟩).2 [3] []
    (by decide) (by decide)).1
  exact ⟨h1, by simpa using h2⟩

/-- C7: QueryChunks, also on duplicate or overlapping chunk lists, returns each
resident handle exactly once — the result is duplicate-free and holds exactly
the handles of the scanned buckets — ordered by the first position at which each
handle is encountered while scanning the requested chunks in list order. -/
theorem c7_querychunks_dedup_order (g : CellMap) (chunks : List ChunkPos) :
    (QueryChunks g chunks).Nodup ∧
    (∀ h, h ∈ QueryChunks g chunks ↔ h ∈ chunkScan g chunks) ∧
    (QueryChunks g chunks).Pairwise
      (fun a b => (chunkScan g chunks).indexOf a < (chunkScan g chunks).indexOf b) := by
  rw [QueryChunks_eq_dedupFirst]
  exact ⟨dedupFirst_nodup _, fun h => mem_dedupFirst h _, dedupFirst_pairwise _⟩

attribute [local semireducible] Rat.add Rat.sub Rat.mul Rat.inv in
/-- C8: QueryRadius is exactly QueryNearby on the symmetric box of side
2×radius centered on the position — no Euclidean filter is applied — and
concretely, with cellSize 16, the handle stored at (4,4,4) is returned by
QueryRadius((0,0,0), 5) although its squared Euclidean distance 48 exceeds
5² = 25. -/
theorem c8_queryradius_box :
    (∀ (cellSize : ℤ) (g : CellMap) (env : EntityHandle → Vec3) (pos : Vec3) (radius : ℤ),
        QueryRadius cellSize g env pos radius =
          QueryNearby cellSize g env (radiusBoxSpec pos radius)) ∧
      QueryRadius 16 (Add 16 [] 0 ⟨4, 4, 4⟩) (fun _ => ⟨4, 4, 4⟩) ⟨0, 0, 0⟩ 5 = [0] ∧
      sqDist ⟨4, 4, 4⟩ ⟨0, 0, 0⟩ > 5 * 5 := by
  refine ⟨fun cellSize g env pos radius => rfl, by decide, by decide⟩

/-- C9: cellForChunkPos reuses the chunk coordinates verbatim as the cell key
with no cellSize scaling, so QueryChunks on one chunk returns the deduplicated
bucket keyed by those coordinates; the verbatim reuse coincides with
position-derived bucketing only when the cell size equals the chunk edge length
(for distinct positive sizes the position (edge·cellSize, 0, edge·cellSize) is
bucketed differently), and it does coincide at equal sizes on nonnegative
coordinates. -/
theorem c9_chunk_cells_verbatim :
    (∀ c : ChunkPos, cellForChunkPos c = ⟨c.1, c.2⟩) ∧
    (∀ (g : CellMap) (c : ChunkPos),
        QueryChunks g [c] = dedupFirst (mapFind g ⟨c.1, c.2⟩)) ∧
    (∀ cellSize edge : ℤ, 0 < cellSize → 0 < edge → cellSize ≠ edge →
        cellForChunkPos
            (chunkOfPos edge ⟨((edge * cellSize : ℤ) : ℚ), 0, ((edge * cellSize : ℤ) : ℚ)⟩) ≠
          cellForPos cellSize ⟨((edge * cellSize : ℤ) : ℚ), 0, ((edge * cellSize : ℤ) : ℚ)⟩) ∧
    (∀ (cellSize : ℤ) (p : Vec3), 0 < cellSize → 0 ≤ p.x → 0 ≤ p.z →
        cellForChunkPos (chunkOfPos cellSize p) = cellForPos cellSize p) := by
  refine ⟨fun c => rfl, ?_, ?_, ?_⟩
  · intro g c
    rw [QueryChunks_eq_dedupFirst]
    simp [chunkScan, cellForChunkPos]
  · intro cellSize edge hcs hedge hne heq
    have hX := congrArg GridCell.X heq
    simp only [cellForChunkPos, chunkOfPos, cellForPos] at hX
    rw [floorQ_intCast, truncQ_intCast, Int.mul_fdiv_cancel_left _ (by omega),
      Int.mul_tdiv_cancel _ (by omega)] at hX
    exact hne hX
  · intro cellSize p hcs hx hz
    have hfx : floorQ p.x = truncQ p.x := by rw [floorQ_eq_floor, truncQ_eq_floor hx]
    have hfz : floorQ p.z = truncQ p.z := by rw [floorQ_eq_floor, truncQ_eq_floor hz]
    have hnx : 0 ≤ truncQ p.x := by
      rw [truncQ_eq_floor hx]
      exact Int.le_floor.mpr (by exact_mod_cast hx)
    have hnz : 0 ≤ truncQ p.z := by
      rw [truncQ_eq_floor hz]
      exact Int.le_floor.mpr (by exact_mod_cast hz)
    show GridCell.mk ((floorQ p.x).fdiv cellSize) ((floorQ p.z).fdiv cellSize) =
      cellForPos cellSize p
    rw [hfx, hfz, Int.fdiv_eq_tdiv hnx hcs.le, Int.fdiv_eq_tdiv hnz hcs.le]
    rfl

attribute [local semireducible] Rat.add Rat.sub Rat.mul Rat.inv in
/-- Witness for C9: with cell size 8 and chunk edge 16, the position (128,0,128)
lies in chunk (8,8) — hence cell (8,8) under verbatim reuse — but cellForPos
puts it in cell (16,16). -/
theorem c9_chunk_cells_witness :
    cellForChunkPos (chunkOfPos 16 ⟨((16 * 8 : ℤ) : ℚ), 0, ((16 * 8 : ℤ) : ℚ)⟩) ≠
      cellForPos 8 ⟨((16 * 8 : ℤ) : ℚ), 0, ((16 * 8 : ℤ) : ℚ)⟩ :=
  c9_chunk_cells_verbatim.2.2.1 8 16 (by decide) (by decide) (by decide)

end SpatialGrid
